import Mathlib

/-!
Verification of the sitrep advisory pipeline (`src/app.py`).

A shallow embedding of the request pipeline of `SecurityAdvisor`
(`process_query` and `generate_response` in `src/app.py`), over `List Char`
as the model of Python `str`.

Modelling conventions:
* Python strings are `List Char`.  The character classes (`str.strip`
  whitespace, the regex classes `\s`, `\w`, `\d`) are modelled on the
  Unicode code points CPython uses for the ASCII and Latin-1 range plus the
  Unicode space separators; exotic case-folding (e.g. multi-character
  `str.lower` expansions) is out of the model, which is exact on ASCII data.
* The one external effect, the chat-completion call (`LLMChain.run` on the
  prompt built from the greeting, the sitrep and the cleaned query), is an
  oracle parameter returning either a completion string or a raised
  exception (`Except`).  Everything else in the pipeline is pure.
* The header regex of `process_query` is embedded as a direct sequential
  matcher; a token-by-token argument that Python's leftmost-greedy
  backtracking semantics is deterministic for this particular pattern is
  given at `matchHeader` below.
-/

namespace SitrepBot

/-- Whitespace: the characters stripped by Python's `str.strip()` and matched
by the regex class `\s` (CPython's `str.isspace` set: ASCII whitespace,
the C1 separators, NEL, NBSP, and the Unicode space/line/paragraph
separators). -/
def isSpace (c : Char) : Bool :=
  c = ' ' || c = '\t' || c = '\n' || c = '\r' || c = '\x0b' || c = '\x0c' ||
  c = '\x1c' || c = '\x1d' || c = '\x1e' || c = '\x1f' || c = '\x85' ||
  c = '\xa0' || c = '\u1680' || ('\u2000' ≤ c && c ≤ '\u200a') ||
  c = '\u2028' || c = '\u2029' || c = '\u202f' || c = '\u205f' || c = '\u3000'

/-- Python str.lstrip(). -/
def pyLstrip (cs : List Char) : List Char := cs.dropWhile isSpace

/-- Python str.rstrip(). -/
def pyRstrip (cs : List Char) : List Char := cs.rdropWhile isSpace

/-- Python str.strip(). -/
def pyStrip (cs : List Char) : List Char := pyRstrip (pyLstrip cs)

/-- Python str.lower() (ASCII case folding). -/
def pyLower (cs : List Char) : List Char := cs.map Char.toLower

/-- The regex class `\d`. -/
def isDigitChar (c : Char) : Bool := c.isDigit

/-- The regex class `\w` (ASCII fragment: letters, digits, underscore). -/
def isWordChar (c : Char) : Bool := c.isAlphanum || c = '_'

/-- The regex class `[\d:]`. -/
def isDigitColon (c : Char) : Bool := c.isDigit || c = ':'

/-- The regex class `[^,]`. -/
def notComma (c : Char) : Bool := c ≠ ','

/-- Regex token `p+` (greedy): consume the maximal run of characters in the
class `p`, failing when that run is empty and returning the rest of the
input otherwise.  In the header pattern of `process_query` every `+`/`*`
token is followed by a token over a disjoint character class, so Python's
backtracking can never profitably shorten a maximal run: the
greedy-without-backtracking reading used here is exact (see `matchHeader`). -/
def takeRun1 (p : Char → Bool) (cs : List Char) : Option (List Char) :=
  match cs.takeWhile p with
  | [] => none
  | _ :: _ => some (cs.dropWhile p)

/-- A sequence of `p+` tokens, applied left to right. -/
def runSeq : List (Char → Bool) → List Char → Option (List Char)
  | [], cs => some cs
  | p :: ps, cs =>
    match takeRun1 p cs with
    | some r => runSeq ps r
    | none => none

/-- Regex fragment `\s*\n`: the greedy `\s*` first swallows the maximal
whitespace run, and backtracking then hands characters back one at a time
until the next character is a literal `\n`; the fragment therefore consumes
exactly through the LAST newline of the maximal whitespace run, and fails
when that run contains no newline. -/
def wsNewline (cs : List Char) : Option (List Char) :=
  let w := cs.takeWhile isSpace
  if '\n' ∈ w then
    some ((w.reverse.takeWhile (fun c => c ≠ '\n')).reverse ++ cs.dropWhile isSpace)
  else none

/-- The tail of the header regex after the second comma:
`\s*\d+\s+\w+\s+\d+\s+[\d:]+\s+\w+\s*\n` — day, month token, year, time,
timezone token, then the newline separating header from body.  Adjacent
tokens have disjoint classes throughout (digits / whitespace / word
characters / `[\d:]`), so every run is forced to be maximal and the
sequential reading is the regex's unique match. -/
def matchDateTail (cs : List Char) : Option (List Char) :=
  match runSeq [isDigitChar, isSpace, isWordChar, isSpace, isDigitChar, isSpace,
      isDigitColon, isSpace, isWordChar] (cs.dropWhile isSpace) with
  | some r => wsNewline r
  | none => none

/-- Model of re.match of the header pattern of `process_query` (line 32 of
`src/app.py`), with `re.DOTALL`, against an already-stripped string:

  `^([^,]+),\s*(?:[^,]+,\s*\d+\s+\w+\s+\d+\s+[\d:]+\s+\w+)\s*\n(.+)$`

Returns `(group 1, group 2)` on a match.  Why the deterministic sequential
reading is exact for this pattern under Python's leftmost-greedy semantics:
* `([^,]+),` — the class `[^,]` cannot cross a comma, so the comma matched
  is the first comma of the input and group 1 is exactly the text before it;
  a backtracked, shorter group 1 would leave a non-comma in front of `,`.
* `\s*[^,]+,` — both classes exclude the comma, so all backtracking splits
  between them consume exactly the segment up to the next comma, which must
  be non-empty (for `[^,]+`); all splits resume at the same position.
* the date tail and `\s*\n` — see `matchDateTail` and `wsNewline`.
* `(.+)$` — with `re.DOTALL`, and no trailing newline in a stripped input,
  this matches exactly the non-empty remainder of the input. -/
def matchHeader (cs : List Char) : Option (List Char × List Char) :=
  match cs.takeWhile notComma, cs.dropWhile notComma with
  | name@(_ :: _), _ :: afterC1 =>
    match afterC1.takeWhile notComma, afterC1.dropWhile notComma with
    | _ :: _, _ :: afterC2 =>
      match matchDateTail afterC2 with
      | some body => if body = [] then none else some (name, body)
      | none => none
    | _, _ => none
  | _, _ => none

/-- Embedding of SecurityAdvisor.process_query (lines 30–38): extract name and clean
query from the timestamp format; on no match, `(None, query.strip())`. -/
def process_query (query : List Char) : Option (List Char) × List Char :=
  match matchHeader (pyStrip query) with
  | some (name, content) => (some (pyStrip name), pyStrip content)
  | none => (none, pyStrip query)

/-- Line 49: `not cleaned_query or cleaned_query.lower().endswith(('thank',
'ok', 'got it'))` — the trivial-acknowledgment test (a SUFFIX test). -/
def isTrivialReply (cleaned : List Char) : Bool :=
  cleaned.isEmpty ||
    (("thank".data).isSuffixOf (pyLower cleaned) ||
     ("ok".data).isSuffixOf (pyLower cleaned) ||
     ("got it".data).isSuffixOf (pyLower cleaned))

/-- Line 46: `greeting = f"Hey {name}," if name else "Hey,"`.  Python
truthiness: both `None` and an empty string fall to the `"Hey,"` branch. -/
def mkGreeting (name : Option (List Char)) : List Char :=
  match name with
  | some (c :: cs) => ("Hey ".data) ++ (c :: cs) ++ [',']
  | _ => ("Hey,".data)

/-- Lines 234–238: prepend `greeting + "\n\n"` when the model output does not
already start with the greeting, then `str.strip()` the result. -/
def finalize (resp greeting : List Char) : List Char :=
  if greeting.isPrefixOf resp then pyStrip resp
  else pyStrip (greeting ++ '\n' :: '\n' :: resp)

/-- The canned acknowledgment body of the trivial path (line 51). -/
def cannedAck : List Char :=
  ("Message received. Thank you! Gradient Cyber Team!".data)

/-- The fixed fallback of the `except` handler (line 243). -/
def fallbackText : List Char :=
  ("Error generating response. Please try again.".data)

/-- The chat-completion call (prompt template plus `LLMChain.run`), an
external collaborator: an oracle from the values interpolated into the
prompt — greeting, sitrep, cleaned query — to either a completion string or
a raised exception carrying its message. -/
abbrev Model : Type := List Char → List Char → List Char → Except (List Char) (List Char)

/-- The dictionary `{"response": ...}` returned by `generate_response`. -/
structure ResponseDict where
  response : List Char
  deriving DecidableEq

/-- The body of the `try:` block of `SecurityAdvisor.generate_response`
(lines 44–239): normalization, greeting construction, the trivial
short-circuit, the model call, finalization.  A raised exception — the model
call is the one raising operation in the block — propagates as `.error`. -/
def generate_response_body (model : Model) (sitrep query : List Char) :
    Except (List Char) ResponseDict :=
  match process_query query with
  | (name, cleaned) =>
    let greeting := mkGreeting name
    if isTrivialReply cleaned then
      Except.ok ⟨greeting ++ '\n' :: '\n' :: cannedAck⟩
    else
      match model greeting sitrep cleaned with
      | Except.ok resp => Except.ok ⟨finalize resp greeting⟩
      | Except.error e => Except.error e

/-- Embedding of SecurityAdvisor.generate_response (lines 40–244): the `try:` body with
the catch-all `except Exception` handler substituting the fixed fallback. -/
def generate_response (model : Model) (sitrep query : List Char) : ResponseDict :=
  match generate_response_body model sitrep query with
  | Except.ok d => d
  | Except.error _ => ⟨fallbackText⟩

/-- The body text of end-to-end scenario 1 (an acknowledgment message). -/
def thanksBody : List Char :=
  ("Thanks, that".data) ++ '\'' :: ("s clear.".data)

/-- The raw query of end-to-end scenario 1 of the specification:
`thanksBody` behind a timestamp header. -/
def janeQ : List Char :=
  ("Jane Doe, Acme Inc, 03 Jan 2024 10:15 UTC\n".data) ++ thanksBody

/-! ## C1: the trivial-reply decision -/

/-- C1 is refuted: the claim asserts prefix matching, under which
`isTrivial "Thanks!"` is true; the code's test is
`cleaned_query.lower().endswith(('thank', 'ok', 'got it'))` — a suffix
test — and `"thanks!"` ends with none of the tokens. -/
theorem trivial_thanks_refuted : ¬ (isTrivialReply ("Thanks!".data) = true) := by
  decide

/-- C1 (amended): the trivial-reply decision holds exactly when the cleaned
body is empty or its lower-casing ENDS with one of the tokens `"thank"`,
`"ok"`, `"got it"`; in particular it returns true for `""` and `"ok"`, and
false for `"Got it, appreciated"` and
`"What should we do about this alert?"`. -/
theorem trivial_suffix_spec :
    (∀ b, isTrivialReply b = true ↔
      (b = [] ∨ ("thank".data) <:+ pyLower b ∨ ("ok".data) <:+ pyLower b ∨
        ("got it".data) <:+ pyLower b)) ∧
    isTrivialReply ([] : List Char) = true ∧
    isTrivialReply ("ok".data) = true ∧
    isTrivialReply ("Got it, appreciated".data) = false ∧
    isTrivialReply ("What should we do about this alert?".data) = false := by
  refine ⟨fun b => ?_, by decide, by decide, by decide, by decide⟩
  simp only [isTrivialReply, Bool.or_eq_true, List.isEmpty_iff,
    List.isSuffixOf_iff_suffix]
  tauto

/-! ## C3: end-to-end scenario 1 -/

/-- C3 is refuted: on the scenario-1 query the pipeline does NOT take the
trivial path (the cleaned body `"Thanks, that's clear."` fails the suffix
test), so the model IS invoked and the response is not the canned
acknowledgment: here a model answering `"X"` yields a different response. -/
theorem scenario1_refuted :
    ¬ ((generate_response (fun _ _ _ => Except.ok ("X".data)) ("S".data) janeQ).response
        = ("Hey Jane Doe,\n\nMessage received. Thank you! Gradient Cyber Team!".data)) := by
  decide

/-- C3 (amended): on the scenario-1 query the normalizer extracts the name
`"Jane Doe"` and the body `"Thanks, that's clear."`; that body is NOT judged
trivial by the code's suffix test, so the pipeline proceeds to the model;
with a model output `"X"` the response is `"Hey Jane Doe,\n\nX"`. -/
theorem scenario1_model_path :
    process_query janeQ = (some ("Jane Doe".data), thanksBody) ∧
    isTrivialReply thanksBody = false ∧
    (generate_response (fun _ _ _ => Except.ok ("X".data)) ("S".data) janeQ).response
      = ("Hey Jane Doe,\n\nX".data) := by
  exact ⟨by decide, by decide, by decide⟩

/-! ## C4: model failure yields the fixed fallback -/

/-- C4: whenever the model call raises (on a non-trivial query, so that the
call actually happens), `generate_response` returns exactly the fixed
fallback dictionary — never partial content, and never the raised error. -/
theorem model_error_yields_fallback (model : Model) (sitrep query e : List Char)
    (htriv : isTrivialReply (process_query query).2 = false)
    (hmodel : model (mkGreeting (process_query query).1) sitrep (process_query query).2
      = Except.error e) :
    generate_response model sitrep query = ⟨fallbackText⟩ := by
  rcases hp : process_query query with ⟨nm, cl⟩
  rw [hp] at htriv hmodel
  simp [generate_response, generate_response_body, hp, htriv, hmodel]

theorem model_error_yields_fallback_witness :
    isTrivialReply (process_query ("What should we do about this alert?".data)).2 = false ∧
    generate_response (fun _ _ _ => Except.error ("timeout".data)) ("S".data)
      ("What should we do about this alert?".data) = ⟨fallbackText⟩ :=
  ⟨by decide, model_error_yields_fallback _ _ _ ("timeout".data) (by decide) rfl⟩

/-! ## C9: the catch-all handler -/

/-- C9: for every model behavior (including a raising one) the function
returns a plain response dictionary: either the try-body's value, or, when
the body raises, the fixed fallback dictionary — no exception escapes. -/
theorem generate_response_never_raises (model : Model) (sitrep query : List Char) :
    (∃ d, generate_response_body model sitrep query = Except.ok d ∧
      generate_response model sitrep query = d) ∨
    (∃ e, generate_response_body model sitrep query = Except.error e ∧
      generate_response model sitrep query = ⟨fallbackText⟩) := by
  cases hb : generate_response_body model sitrep query with
  | ok d => exact Or.inl ⟨d, rfl, by simp [generate_response, hb]⟩
  | error e => exact Or.inr ⟨e, rfl, by simp [generate_response, hb]⟩

/-! ## C10: the trivial path ignores the sitrep -/

/-- C10: when the cleaned query is judged trivial, the canned reply is built
from the greeting alone before the sitrep is ever used, so the response is
the same for any two sitreps (and indeed for any model). -/
theorem trivial_path_ignores_sitrep (model : Model) (s1 s2 query : List Char)
    (htriv : isTrivialReply (process_query query).2 = true) :
    generate_response model s1 query = generate_response model s2 query := by
  rcases hp : process_query query with ⟨nm, cl⟩
  rw [hp] at htriv
  simp [generate_response, generate_response_body, hp, htriv]

theorem trivial_path_ignores_sitrep_witness :
    isTrivialReply (process_query ([] : List Char)).2 = true ∧
    generate_response (fun _ _ _ => Except.ok []) ("a".data) ([] : List Char)
      = generate_response (fun _ _ _ => Except.ok []) ("b".data) ([] : List Char) :=
  ⟨by decide, trivial_path_ignores_sitrep _ _ _ _ (by decide)⟩

/-! ## C8: the normalizer is total and degrades gracefully -/

/-- C8: absence of a header match is a normal outcome — the normalizer (a
total function in this embedding, as `re.match` and `str.strip` are
non-raising in Python) returns `(None, trimmed input)` whenever the header
pattern does not match, and `(None, "")` on the empty query. -/
theorem normalizer_total_degrades (q : List Char) :
    (matchHeader (pyStrip q) = none → process_query q = (none, pyStrip q)) ∧
    process_query ([] : List Char) = (none, []) := by
  constructor
  · intro h
    simp [process_query, h]
  · decide

theorem normalizer_total_degrades_witness :
    matchHeader (pyStrip ("hello".data)) = none ∧
    process_query ("hello".data) = (none, pyStrip ("hello".data)) :=
  ⟨by decide, (normalizer_total_degrades ("hello".data)).1 (by decide)⟩

/-! ## Helper lemmas for the header matcher -/

theorem dropWhile_eq_cons_head (p : Char → Bool) :
    ∀ (l : List Char) {c : Char} {t : List Char}, l.dropWhile p = c :: t → p c = false := by
  intro l
  induction l with
  | nil => intro c t h; simp at h
  | cons a l ih =>
    intro c t h
    by_cases hp : p a
    · rw [List.dropWhile_cons_of_pos hp] at h
      exact ih h
    · rw [List.dropWhile_cons_of_neg hp] at h
      cases h
      simpa using hp

theorem takeRun1_eq_some {p : Char → Bool} {cs m : List Char}
    (h : takeRun1 p cs = some m) : ∃ a, cs = a ++ m := by
  rw [takeRun1] at h
  cases htw : cs.takeWhile p with
  | nil =>
    rw [htw] at h
    exact absurd h (by simp)
  | cons c t =>
    rw [htw] at h
    simp only [Option.some.injEq] at h
    exact ⟨cs.takeWhile p, by rw [← h, List.takeWhile_append_dropWhile]⟩

theorem runSeq_eq_some : ∀ (ps : List (Char → Bool)) (cs r : List Char),
    runSeq ps cs = some r → ∃ a, cs = a ++ r := by
  intro ps
  induction ps with
  | nil =>
    intro cs r h
    simp only [runSeq, Option.some.injEq] at h
    exact ⟨[], by rw [h, List.nil_append]⟩
  | cons p ps ih =>
    intro cs r h
    simp only [runSeq] at h
    cases hm : takeRun1 p cs with
    | none =>
      rw [hm] at h
      exact absurd h (by simp)
    | some m =>
      rw [hm] at h
      obtain ⟨a1, ha1⟩ := takeRun1_eq_some hm
      obtain ⟨a2, ha2⟩ := ih m r h
      exact ⟨a1 ++ a2, by rw [ha1, ha2, List.append_assoc]⟩

theorem wsNewline_eq_some {cs r : List Char} (h : wsNewline cs = some r) :
    (∃ a, cs = a ++ '\n' :: r) ∧ '\n' ∉ r.takeWhile isSpace := by
  simp only [wsNewline] at h
  by_cases hmem : '\n' ∈ cs.takeWhile isSpace
  swap
  · rw [if_neg hmem] at h
    exact absurd h (by simp)
  rw [if_pos hmem] at h
  simp only [Option.some.injEq] at h
  obtain ⟨w, hwdef⟩ : ∃ w, cs.takeWhile isSpace = w := ⟨_, rfl⟩
  obtain ⟨d, hddef⟩ : ∃ d, cs.dropWhile isSpace = d := ⟨_, rfl⟩
  rw [hwdef] at hmem
  rw [hwdef, hddef] at h
  obtain ⟨t, htdef⟩ : ∃ t, w.reverse.takeWhile (fun c => decide (c ≠ '\n')) = t :=
    ⟨_, rfl⟩
  obtain ⟨u, hudef⟩ : ∃ u, w.reverse.dropWhile (fun c => decide (c ≠ '\n')) = u :=
    ⟨_, rfl⟩
  rw [htdef] at h
  have hsplit : t ++ u = w.reverse := by
    rw [← htdef, ← hudef, List.takeWhile_append_dropWhile]
  obtain ⟨u', hu⟩ : ∃ u', u = '\n' :: u' := by
    cases hcase : u with
    | nil =>
      exfalso
      rw [hcase, List.append_nil] at hsplit
      have hmemt : '\n' ∈ t := by
        rw [hsplit]
        exact List.mem_reverse.mpr hmem
      rw [← htdef] at hmemt
      have := List.mem_takeWhile_imp hmemt
      simp at this
    | cons c0 u'' =>
      have hc0 := dropWhile_eq_cons_head _ _ (hudef.trans hcase)
      simp only [decide_eq_false_iff_not, Decidable.not_not] at hc0
      exact ⟨u'', by rw [hc0]⟩
  subst hu
  have hw : w = u'.reverse ++ '\n' :: t.reverse := by
    conv_lhs => rw [← List.reverse_reverse w, ← hsplit]
    rw [List.reverse_append, List.reverse_cons, List.append_assoc,
      List.singleton_append]
  have hspaces : ∀ x ∈ t.reverse, isSpace x = true := by
    intro x hx
    rw [List.mem_reverse, ← htdef] at hx
    have hx2 : x ∈ w.reverse := ( List.takeWhile_prefix _).sublist.subset hx
    rw [List.mem_reverse, ← hwdef] at hx2
    exact List.mem_takeWhile_imp hx2
  have hdnil : d.takeWhile isSpace = [] := by
    cases hcase : d with
    | nil => rfl
    | cons c0 d' =>
      have hc0 := dropWhile_eq_cons_head _ _ (hddef.trans hcase)
      exact List.takeWhile_cons_of_neg (by simp [hc0])
  have hcs : cs = w ++ d := by
    conv_lhs => rw [← List.takeWhile_append_dropWhile isSpace cs]
    rw [hwdef, hddef]
  constructor
  · refine ⟨u'.reverse, ?_⟩
    rw [hcs, hw, List.append_assoc, List.cons_append, h]
  · intro hcon
    rw [← h, List.takeWhile_append_of_pos hspaces, hdnil, List.append_nil,
      List.mem_reverse, ← htdef] at hcon
    have := List.mem_takeWhile_imp hcon
    simp at this

theorem matchDateTail_eq_some {cs r : List Char} (h : matchDateTail cs = some r) :
    (∃ a, cs = a ++ '\n' :: r) ∧ '\n' ∉ r.takeWhile isSpace := by
  simp only [matchDateTail] at h
  cases hrs : runSeq [isDigitChar, isSpace, isWordChar, isSpace, isDigitChar, isSpace,
      isDigitColon, isSpace, isWordChar] (cs.dropWhile isSpace) with
  | none =>
    rw [hrs] at h
    exact absurd h (by simp)
  | some m =>
    rw [hrs] at h
    obtain ⟨a2, ha2⟩ := runSeq_eq_some _ _ _ hrs
    obtain ⟨⟨a3, ha3⟩, hnb⟩ := wsNewline_eq_some h
    refine ⟨⟨cs.takeWhile isSpace ++ (a2 ++ a3), ?_⟩, hnb⟩
    conv_lhs => rw [← List.takeWhile_append_dropWhile isSpace cs]
    rw [ha2, ha3]
    simp [List.append_assoc]

theorem matchHeader_eq_some {cs n b : List Char}
    (h : matchHeader cs = some (n, b)) :
    n = cs.takeWhile notComma ∧
    (∃ mid, cs = cs.takeWhile notComma ++ ',' :: mid ++ '\n' :: b) ∧
    '\n' ∉ b.takeWhile isSpace := by
  unfold matchHeader at h
  split at h
  · rename_i nc nt c1 afterC1 heq1 heq2
    split at h
    · rename_i sc st c2 afterC2 heq3 heq4
      split at h
      · rename_i body heq5
        split at h
        · exact absurd h (by simp)
        · simp only [Option.some.injEq, Prod.mk.injEq] at h
          obtain ⟨hn, hb⟩ := h
          have hc1 : c1 = ',' := by
            have := dropWhile_eq_cons_head notComma cs heq2
            simpa [notComma] using this
          have hc2 : c2 = ',' := by
            have := dropWhile_eq_cons_head notComma afterC1 heq4
            simpa [notComma] using this
          obtain ⟨⟨a, ha⟩, hnb⟩ := matchDateTail_eq_some heq5
          subst hb
          refine ⟨by rw [← hn, heq1], ⟨afterC1.takeWhile notComma ++ ',' :: a, ?_⟩, hnb⟩
          conv_lhs => rw [← List.takeWhile_append_dropWhile notComma cs]
          rw [heq2, hc1]
          conv_lhs => rw [← List.takeWhile_append_dropWhile notComma afterC1]
          rw [heq4, hc2, ha]
          simp [List.append_assoc]
      · exact absurd h (by simp)
    · exact absurd h (by simp)
  · exact absurd h (by simp)

/-! ## C5: the normalizer's header extraction -/

/-- C5: when the header pattern matches, the extracted sender name is the
trimmed text before the first comma of the trimmed raw query, and the body
is the trimmed text after the newline that terminates the header (the split
newline is the last one before the body: no newline remains in the body's
leading whitespace); when the pattern does not match, the normalizer
returns `None` with the trimmed raw query unchanged. -/
theorem process_query_header_spec (q : List Char) :
    (∀ n b, process_query q = (some n, b) →
      n = pyStrip ((pyStrip q).takeWhile notComma) ∧
      ∃ mid rest,
        pyStrip q = (pyStrip q).takeWhile notComma ++ ',' :: mid ++ '\n' :: rest ∧
        b = pyStrip rest ∧ '\n' ∉ rest.takeWhile isSpace) ∧
    (matchHeader (pyStrip q) = none → process_query q = (none, pyStrip q)) := by
  constructor
  · intro n b h
    cases hm : matchHeader (pyStrip q) with
    | none =>
      rw [process_query, hm] at h
      exact absurd h (by simp)
    | some nb =>
      obtain ⟨nm, ct⟩ := nb
      rw [process_query, hm] at h
      simp only [Prod.mk.injEq, Option.some.injEq] at h
      obtain ⟨hn, hb⟩ := h
      obtain ⟨hname, ⟨mid, hmid⟩, hnb⟩ := matchHeader_eq_some hm
      refine ⟨by rw [← hn, hname], mid, ct, ?_, by rw [hb], hnb⟩
      rw [← hmid]
  · intro hm
    rw [process_query, hm]

theorem process_query_header_spec_witness :
    process_query janeQ = (some ("Jane Doe".data), thanksBody) ∧
    (("Jane Doe".data) = pyStrip ((pyStrip janeQ).takeWhile notComma) ∧
      ∃ mid rest,
        pyStrip janeQ = (pyStrip janeQ).takeWhile notComma ++ ',' :: mid ++ '\n' :: rest ∧
        thanksBody = pyStrip rest ∧ '\n' ∉ rest.takeWhile isSpace) :=
  ⟨by decide, (process_query_header_spec janeQ).1 ("Jane Doe".data)
    thanksBody (by decide)⟩

/-! ## Helper lemmas about stripping -/

theorem dropWhile_append_cons {p : Char → Bool} {c : Char} (a b : List Char)
    (hc : p c = false) :
    (a ++ c :: b).dropWhile p = a.dropWhile p ++ c :: b := by
  rw [List.dropWhile_append]
  cases h : (a.dropWhile p).isEmpty with
  | true =>
    rw [if_pos rfl]
    rw [List.isEmpty_iff] at h
    rw [h, List.dropWhile_cons_of_neg (by simp [hc]), List.nil_append]
  | false =>
    rw [if_neg (by simp [h])]

theorem strip_fixed_head {g : List Char} (hg : pyStrip g = g) {c : Char} {t : List Char}
    (he : g = c :: t) : isSpace c = false := by
  have hpre : pyStrip g <+: pyLstrip g := List.rdropWhile_prefix _ _
  obtain ⟨u, hu⟩ := hpre
  rw [hg] at hu
  have h2 : pyLstrip g = c :: (t ++ u) := by rw [← hu, he, List.cons_append]
  exact dropWhile_eq_cons_head isSpace g h2

theorem strip_fixed_rev_head {g : List Char} (hg : pyStrip g = g) {c : Char}
    {t : List Char} (he : g.reverse = c :: t) : isSpace c = false := by
  have h1 : g.reverse = List.dropWhile isSpace ((pyLstrip g).reverse) := by
    conv_lhs => rw [← hg]
    simp [pyStrip, pyRstrip, List.rdropWhile]
  exact dropWhile_eq_cons_head isSpace ((pyLstrip g).reverse) (by rw [← h1, he])

theorem pyRstrip_append {g : List Char} (x : List Char) {c : Char} {t : List Char}
    (he : g.reverse = c :: t) (hc : isSpace c = false) :
    pyRstrip (g ++ x) = g ++ pyRstrip x := by
  show (List.dropWhile isSpace (g ++ x).reverse).reverse
      = g ++ (List.dropWhile isSpace x.reverse).reverse
  rw [List.reverse_append, he, dropWhile_append_cons _ _ hc, List.reverse_append,
    ← he, List.reverse_reverse]

theorem pyStrip_append_stripped {g : List Char} (x : List Char) (hg : pyStrip g = g)
    (hne : g ≠ []) : pyStrip (g ++ x) = g ++ pyRstrip x := by
  obtain ⟨c, t, he⟩ : ∃ c t, g = c :: t := by
    cases g with
    | nil => exact absurd rfl hne
    | cons c t => exact ⟨c, t, rfl⟩
  obtain ⟨c', t', he'⟩ : ∃ c' t', g.reverse = c' :: t' := by
    cases hr : g.reverse with
    | nil => rw [List.reverse_eq_nil_iff] at hr; exact absurd hr hne
    | cons c' t' => exact ⟨c', t', rfl⟩
  have hc := strip_fixed_head hg he
  have hc' := strip_fixed_rev_head hg he'
  have hl : pyLstrip (g ++ x) = g ++ x := by
    rw [he, List.cons_append, pyLstrip, List.dropWhile_cons_of_neg (by simp [hc]),
      ← List.cons_append]
  rw [pyStrip, hl]
  exact pyRstrip_append x he' hc'

theorem pyStrip_idem (l : List Char) : pyStrip (pyStrip l) = pyStrip l := by
  cases he : pyStrip l with
  | nil => rfl
  | cons c t =>
    have hpre : pyStrip l <+: pyLstrip l := List.rdropWhile_prefix _ _
    rw [he] at hpre
    obtain ⟨u, hu⟩ := hpre
    have hc : isSpace c = false := by
      have h2 : pyLstrip l = c :: (t ++ u) := by rw [← hu, List.cons_append]
      exact dropWhile_eq_cons_head isSpace l h2
    have h1 : pyLstrip (c :: t) = c :: t := by
      rw [pyLstrip, List.dropWhile_cons_of_neg (by simp [hc])]
    show pyRstrip (pyLstrip (c :: t)) = c :: t
    rw [h1, ← he]
    exact List.rdropWhile_idempotent isSpace (pyLstrip l)

/-! ## Helper lemmas about the finalizer and the greeting -/

theorem finalize_fixed (t g : List Char) : pyStrip (finalize t g) = finalize t g := by
  rw [finalize]
  split
  · exact pyStrip_idem _
  · exact pyStrip_idem _

theorem finalize_starts_with_greeting (t g : List Char) (hg : pyStrip g = g) :
    g.isPrefixOf (finalize t g) = true := by
  by_cases hne : g = []
  · subst hne
    rw [ List.isPrefixOf_iff_prefix]
    exact List.nil_prefix
  · rw [finalize]
    split
    · next hyes =>
      rw [ List.isPrefixOf_iff_prefix] at hyes
      obtain ⟨u, hu⟩ := hyes
      rw [← hu, pyStrip_append_stripped u hg hne, List.isPrefixOf_iff_prefix]
      exact List.prefix_append _ _
    · rw [pyStrip_append_stripped _ hg hne, List.isPrefixOf_iff_prefix]
      exact List.prefix_append _ _

theorem finalize_of_not_starts (t g : List Char) (hg : pyStrip g = g)
    (h : g.isPrefixOf t = false) :
    finalize t g = g ++ pyRstrip ('\n' :: '\n' :: t) := by
  have hne : g ≠ [] := by
    intro hcon
    subst hcon
    have htrue : ([] : List Char).isPrefixOf t = true := by
      rw [ List.isPrefixOf_iff_prefix]
      exact List.nil_prefix
    rw [htrue] at h
    simp at h
  rw [finalize, if_neg (by simp [h])]
  exact pyStrip_append_stripped _ hg hne

theorem mkGreeting_shape (nm : Option (List Char)) :
    ∃ t, mkGreeting nm = 'H' :: (t ++ [',']) := by
  rcases nm with _ | nmval
  · exact ⟨("ey".data), rfl⟩
  · rcases nmval with _ | ⟨c, cs⟩
    · exact ⟨("ey".data), rfl⟩
    · refine ⟨("ey ".data) ++ (c :: cs), ?_⟩
      simp [mkGreeting]

theorem mkGreeting_stripFixed (nm : Option (List Char)) :
    pyStrip (mkGreeting nm) = mkGreeting nm := by
  obtain ⟨t, ht⟩ := mkGreeting_shape nm
  rw [ht, pyStrip, pyLstrip, List.dropWhile_cons_of_neg (by decide)]
  show List.rdropWhile isSpace (('H' :: t) ++ [',']) = ('H' :: t) ++ [',']
  exact List.rdropWhile_concat_neg _ _ _ (by decide)

/-! ## C2: the finalizer and foreign greeting prefixes -/

/-- C2 is refuted on its removal half: the finalizer only PREPENDS the
caller's greeting when missing — a foreign `"Hey X,"` prefix in the model
output is not stripped, it survives inside the result. -/
theorem finalize_foreign_prefix_kept :
    finalize ("Hey Bob,\n\nhi".data) ("Hey Jane,".data)
      = ("Hey Jane,\n\nHey Bob,\n\nhi".data) ∧
    ("Hey Bob,".data) <:+: finalize ("Hey Bob,\n\nhi".data) ("Hey Jane,".data) := by
  exact ⟨by decide, by decide⟩

/-- C2 (amended): for every greeting that is fixed under strip (as every
pipeline-built greeting is), the finalized response starts with exactly that
greeting; but when the model output does not already start with the
greeting, the output — any foreign `"Hey X,"` prefix included — is kept
verbatim after `greeting ++ "\n\n"` (up to trailing-whitespace stripping),
not removed. -/
theorem finalize_greeting_spec (t g : List Char) (hg : pyStrip g = g) :
    g.isPrefixOf (finalize t g) = true ∧
    (g.isPrefixOf t = false → finalize t g = g ++ pyRstrip ('\n' :: '\n' :: t)) :=
  ⟨finalize_starts_with_greeting t g hg, fun h => finalize_of_not_starts t g hg h⟩

theorem finalize_greeting_spec_witness :
    pyStrip ("Hey Jane,".data) = ("Hey Jane,".data) ∧
    (("Hey Jane,".data).isPrefixOf
        (finalize ("Hey Bob,\n\nanother hi".data) ("Hey Jane,".data)) = true ∧
      (("Hey Jane,".data).isPrefixOf ("Hey Bob,\n\nanother hi".data) = false →
        finalize ("Hey Bob,\n\nanother hi".data) ("Hey Jane,".data)
          = ("Hey Jane,".data) ++ pyRstrip ('\n' :: '\n' :: ("Hey Bob,\n\nanother hi".data)))) :=
  ⟨by decide, finalize_greeting_spec ("Hey Bob,\n\nanother hi".data) ("Hey Jane,".data) (by decide)⟩

/-! ## C6: idempotence of the finalizer -/

/-- C6 is refuted as stated (for EVERY greeting): with the greeting `" x"`,
which carries leading whitespace, the first application strips the leading
space so its output no longer starts with the greeting, and the second
application prepends the greeting again. -/
theorem finalize_not_idempotent :
    ¬ (finalize (finalize ("y".data) (" x".data)) (" x".data)
        = finalize ("y".data) (" x".data)) := by
  decide

/-- C6 (amended): the finalizer is idempotent for every greeting that is
fixed under strip — no leading or trailing whitespace — which includes every
greeting the pipeline constructs (`"Hey <name>,"` / `"Hey,"`). -/
theorem finalize_idempotent (t g : List Char) (hg : pyStrip g = g) :
    finalize (finalize t g) g = finalize t g := by
  have h1 := finalize_starts_with_greeting t g hg
  rw [finalize, if_pos h1]
  exact finalize_fixed t g

theorem finalize_idempotent_witness :
    pyStrip ("Hey Jane,".data) = ("Hey Jane,".data) ∧
    finalize (finalize ("hello there".data) ("Hey Jane,".data)) ("Hey Jane,".data)
      = finalize ("hello there".data) ("Hey Jane,".data) :=
  ⟨by decide, finalize_idempotent ("hello there".data) ("Hey Jane,".data) (by decide)⟩

/-! ## C7: every response is non-empty; greeting on non-error paths only -/

/-- C7 is refuted on the error path: there the response is the fixed
fallback text, which does not start with the greeting (nor with `"Hey"`). -/
theorem fallback_lacks_greeting :
    (generate_response (fun _ _ _ => Except.error ("boom".data)) ("S".data)
        ("Any update on the phishing case".data)).response = fallbackText ∧
    (mkGreeting (process_query ("Any update on the phishing case".data)).1).isPrefixOf
      fallbackText = false := by
  exact ⟨by decide, by decide⟩

/-- C7 (amended): the response is non-empty on every path; it begins with the
pipeline's greeting on every SUCCESSFUL path (trivial or model), while on
the error-fallback path it is the fixed fallback text instead. -/
theorem response_nonempty_and_greeting (model : Model) (sitrep query : List Char) :
    (generate_response model sitrep query).response ≠ [] ∧
    (generate_response_body model sitrep query
        = Except.ok (generate_response model sitrep query) →
      (mkGreeting (process_query query).1).isPrefixOf
        (generate_response model sitrep query).response = true) := by
  rcases hp : process_query query with ⟨nm, cl⟩
  obtain ⟨t, ht⟩ := mkGreeting_shape nm
  have hfix := mkGreeting_stripFixed nm
  by_cases htriv : isTrivialReply cl = true
  · have hb : generate_response_body model sitrep query
        = Except.ok ⟨mkGreeting nm ++ '\n' :: '\n' :: cannedAck⟩ := by
      simp [generate_response_body, hp, htriv]
    have hr : generate_response model sitrep query
        = ⟨mkGreeting nm ++ '\n' :: '\n' :: cannedAck⟩ := by
      simp [generate_response, hb]
    constructor
    · rw [hr]
      simp [ht]
    · intro _
      rw [hr]
      simp [ List.isPrefixOf_iff_prefix, List.prefix_append]
  · cases hm : model (mkGreeting nm) sitrep cl with
    | ok resp =>
      have hb : generate_response_body model sitrep query
          = Except.ok ⟨finalize resp (mkGreeting nm)⟩ := by
        simp [generate_response_body, hp, htriv, hm]
      have hr : generate_response model sitrep query
          = ⟨finalize resp (mkGreeting nm)⟩ := by
        simp [generate_response, hb]
      have hpre := finalize_starts_with_greeting resp (mkGreeting nm) hfix
      constructor
      · rw [hr]
        rw [ List.isPrefixOf_iff_prefix] at hpre
        intro hcon
        simp only [] at hcon
        rw [hcon, List.prefix_nil, ht] at hpre
        simp at hpre
      · intro _
        rw [hr]
        simpa using hpre
    | error e =>
      have hb : generate_response_body model sitrep query = Except.error e := by
        simp [generate_response_body, hp, htriv, hm]
      have hr : generate_response model sitrep query = ⟨fallbackText⟩ := by
        simp [generate_response, hb]
      constructor
      · rw [hr]
        simp [fallbackText]
      · intro hok
        rw [hb] at hok
        exact absurd hok (by simp)

theorem response_nonempty_and_greeting_witness :
    (generate_response (fun _ _ _ => Except.ok ("X".data)) ("T".data) janeQ).response ≠ [] ∧
    (generate_response_body (fun _ _ _ => Except.ok ("X".data)) ("T".data) janeQ
        = Except.ok (generate_response (fun _ _ _ => Except.ok ("X".data)) ("T".data) janeQ) ∧
      (mkGreeting (process_query janeQ).1).isPrefixOf
        (generate_response (fun _ _ _ => Except.ok ("X".data)) ("T".data) janeQ).response
        = true) :=
  ⟨(response_nonempty_and_greeting (fun _ _ _ => Except.ok ("X".data)) ("T".data) janeQ).1,
   rfl,
   (response_nonempty_and_greeting (fun _ _ _ => Except.ok ("X".data)) ("T".data) janeQ).2
     rfl⟩

end SitrepBot
